import Mathlib

/-!
Shallow embedding of `hummingbot/cli/hummingbot_application.py` (the
`HummingbotApplication` class): the order-cancellation / shutdown path
(`_cancel_outstanding_orders`, `stop`, `exit`), the strategy start path
(`status`, `start`, `start_market_making`) and the command handler
(`_handle_command`), together with the data the claims about them need.

Modelling conventions:
  * Python `float` config values are modelled as `ℚ` (the claims only copy
    and compare these values, never do float arithmetic on them).
  * `self.markets` is a Python dict (insertion ordered); it is modelled as an
    association list `List (String × Market)` with `dictInsert` reproducing
    dict assignment (overwrite in place, else append).
  * A market adapter is external code; the embedding keeps exactly the two
    pieces of it the application reads: the `ready` flag and the list of
    `CancellationResult`s its `cancel_all` call returns.
  * Compiled regexes (`re.compile(..).match(symbol) is not None`) are
    external to the repository and are modelled as `String → Bool` matchers.
  * `SymbolSplitter.split` lives outside `src/` as well; it is modelled as a
    parameter `String → String → Except String (String × String)`, where
    `Except.error msg` models it raising `ValueError(msg)`.
  * Log lines written through `self.app.log` are modelled as structured
    `LogEvent` values rather than interpolated strings.
-/

/-- `CancellationResult` as consumed by `_cancel_outstanding_orders`:
an order id and a success flag. -/
structure CancellationResult where
  order_id : String
  success : Bool
deriving DecidableEq

/-- The slice of a market adapter (`wings.market_base.MarketBase`) that
`hummingbot_application.py` reads: the `ready` flag (used by `status`) and
the `CancellationResult` list returned by its `cancel_all` call. -/
structure Market where
  ready : Bool
  cancelAllResults : List CancellationResult
deriving DecidableEq

/-- Structured stand-ins for the `self.app.log(...)` lines the claims
mention. -/
inductive LogEvent where
  | cancellingOrders
  | failedToCancel (marketName : String) (orderIds : List String)
  | allOrdersCancelled
  | windingDown
  | windDownTerminated
  | statusCheckComplete (strategyName : String)
  | notImplemented
  | valueError (msg : String)
  | strategyStarted (strategyName : String)
deriving DecidableEq

namespace HummingbotApplication

/-- `HummingbotApplication.KILL_TIMEOUT = 5.0` (line 82). -/
def KILL_TIMEOUT : ℚ := 5

/-- The observable outcome of `_cancel_outstanding_orders`: the returned
success flag, the `cancel_all` calls issued (market name, timeout argument),
and the log lines emitted. -/
structure CancelOutcome where
  success : Bool
  calls : List (String × ℚ)
  logs : List LogEvent
deriving DecidableEq

/-- One iteration of the `for market_name, market in self.markets.items()`
loop of `_cancel_outstanding_orders` (lines 146-159): skip `radar_relay`
when `on_chain_cancel_on_exit` is false, otherwise await
`market.cancel_all(KILL_TIMEOUT)`, and on any failed result clear the
success flag and log the uncancelled order ids. -/
def cancelStep (onChainCancelOnExit : Bool) (acc : CancelOutcome)
    (p : String × Market) : CancelOutcome :=
  if !onChainCancelOnExit && p.1 == "radar_relay" then acc
  else
    let uncancelled := p.2.cancelAllResults.filter (fun cr => cr.success == false)
    let acc' := { acc with calls := acc.calls ++ [(p.1, KILL_TIMEOUT)] }
    if uncancelled.length > 0 then
      { acc' with
          success := false
          logs := acc'.logs ++ [.failedToCancel p.1 (uncancelled.map (·.order_id))] }
    else acc'

/-- `HummingbotApplication._cancel_outstanding_orders` (lines 142-162):
start with `success = True`, log "Cancelling outstanding orders...", run the
per-market loop, and log "All outstanding orders cancelled." when the flag
survived. -/
def cancelOutstandingOrders (onChainCancelOnExit : Bool)
    (markets : List (String × Market)) : CancelOutcome :=
  let res := markets.foldl (cancelStep onChainCancelOnExit)
    { success := true, calls := [], logs := [.cancellingOrders] }
  if res.success then { res with logs := res.logs ++ [.allOrdersCancelled] }
  else res

/-- `marketOk c p`: market `p` does not block overall cancellation success —
either it is skipped (`on_chain_cancel_on_exit` false and it is
`radar_relay`) or all of its `CancellationResult`s succeeded. -/
def marketOk (onChainCancelOnExit : Bool) (p : String × Market) : Bool :=
  (!onChainCancelOnExit && p.1 == "radar_relay")
    || p.2.cancelAllResults.all (fun r => r.success)

/-- The tolerance-resolution loop of `start_market_making` (lines 478-482):
`top_depth_tolerance = 0.0`, then for each `(regex, value)` rule in order,
if `regex.match(raw_maker_symbol)` succeeds, overwrite the tolerance with
that rule's value (the loop has no early break). Rules carry their compiled
regex as a `String → Bool` matcher. -/
def resolveTopDepthTolerance (rules : List ((String → Bool) × ℚ))
    (rawMakerSymbol : String) : ℚ :=
  rules.foldl (fun acc p => if p.1 rawMakerSymbol then p.2 else acc) 0

/-- The mutable fields of `HummingbotApplication` that `stop` / `exit`
touch. `wallet`, `strategy_task`, `strategy`, `market_pair` and `clock` are
only ever tested for presence by the claims, so they are kept as
`Option Unit`. -/
structure AppState where
  markets : List (String × Market)
  wallet : Option Unit
  strategyTask : Option Unit
  strategy : Option Unit
  marketPair : Option Unit
  clock : Option Unit
deriving DecidableEq

/-- `HummingbotApplication.stop` (lines 564-579): log "Winding down...";
unless `skip_order_cancellation`, run `_cancel_outstanding_orders` and erase
`self.markets` only when it succeeded; then null out wallet, strategy task,
strategy, market pair and clock. Returns the new state and the log lines. -/
def stop (skipOrderCancellation onChainCancelOnExit : Bool)
    (st : AppState) : AppState × List LogEvent :=
  if skipOrderCancellation then
    ({ markets := st.markets, wallet := none, strategyTask := none,
       strategy := none, marketPair := none, clock := none },
     [.windingDown])
  else
    let co := cancelOutstandingOrders onChainCancelOnExit st.markets
    ({ markets := if co.success then [] else st.markets, wallet := none,
       strategyTask := none, strategy := none, marketPair := none,
       clock := none },
     [.windingDown] ++ co.logs)

/-- The observable outcome of `HummingbotApplication.exit`. -/
structure ExitEffects where
  strategyTaskCancelled : Bool
  cancelCalled : Bool
  appExitCalled : Bool
  logs : List LogEvent
deriving DecidableEq

/-- `HummingbotApplication.exit` (lines 581-593): cancel the strategy task
if present; when `force` is false run `_cancel_outstanding_orders`, and on
failure log the wind-down-terminated message and return WITHOUT calling
`self.app.exit()`; otherwise (success, or `force` true, which skips
cancellation entirely) call `self.app.exit()`. -/
def exit (force onChainCancelOnExit : Bool) (st : AppState) : ExitEffects :=
  let taskCancelled := st.strategyTask.isSome
  if force == false then
    let co := cancelOutstandingOrders onChainCancelOnExit st.markets
    if co.success == false then
      { strategyTaskCancelled := taskCancelled, cancelCalled := true,
        appExitCalled := false, logs := co.logs ++ [.windDownTerminated] }
    else
      { strategyTaskCancelled := taskCancelled, cancelCalled := true,
        appExitCalled := true, logs := co.logs }
  else
    { strategyTaskCancelled := taskCancelled, cancelCalled := false,
      appExitCalled := true, logs := [] }

/-- `HummingbotApplication.status` (lines 350-382), return value only (its
`self.app.log` output is presentation and unused by the claims).
`configComplete` models `self.config_complete` and `ethNodeValid` models
`check_web3(...)`, both external reads. Mirrors the source's branch
structure: incomplete config → `False`; bad eth node → `False`; then if
`self.strategy is None` → `True`; markets still loading → `False`; final
fall-through (which logs the strategy status) → `False`. -/
def status (configComplete ethNodeValid : Bool)
    (markets : List (String × Market)) (strategy : Option Unit) : Bool :=
  if configComplete == false then false
  else if ethNodeValid == false then false
  else
    let loadingMarkets := markets.filter (fun p => !p.2.ready)
    if strategy.isNone then true
    else if loadingMarkets.length > 0 then false
    else false

/-- A participant registered on the `Clock` by `start_market_making`
(lines 553-557): the wallet, a market adapter, or the strategy object. -/
inductive Participant where
  | wallet
  | market (name : String)
  | strategy
deriving DecidableEq

/-- ASCII model of Python `str.upper()`. -/
def pyUpper (s : String) : String := s.map Char.toUpper

/-- ASCII model of Python `str.lower()`. -/
def pyLower (s : String) : String := s.map Char.toLower

/-- Python dict assignment `d[k] = v` on an insertion-ordered dict:
overwrite in place when the key exists, else append. -/
def dictInsert (ms : List (String × Market)) (k : String) (v : Market) :
    List (String × Market) :=
  if ms.any (fun p => p.1 == k) then
    ms.map (fun p => if p.1 == k then (k, v) else p)
  else ms ++ [(k, v)]

/-- The inputs `start_market_making` reads: the strategy name from
`in_memory_config_map`, the per-strategy config values, the prior
`self.markets` dict, and the external collaborators `SymbolSplitter.split`
(`Except.error` = it raised `ValueError`) and the market constructors of
`_initialize_markets`. -/
structure StartModel where
  strategyName : String
  makerMarket : String
  takerMarket : String
  rawMakerSymbol : String
  rawTakerSymbol : String
  primaryMarket : String
  secondaryMarket : String
  rawPrimarySymbol : String
  rawSecondarySymbol : String
  topDepthToleranceRules : List ((String → Bool) × ℚ)
  split : String → String → Except String (String × String)
  markets0 : List (String × Market)
  mkMarket : String → String → Market

/-- The observable effects of one `start_market_making` call. -/
structure StartEffects where
  logs : List LogEvent
  raised : Bool
  walletInit : Bool
  markets : List (String × Market)
  marketsInit : Bool
  topDepthTolerance : ℚ
  marketPairSet : Bool
  strategySet : Bool
  clockIterators : List Participant

/-- The `_initialize_markets(market_names)` loop (lines 323-348): for each
`(market_name, symbol)` construct the adapter and assign
`self.markets[market_name] = market`. -/
def initMarkets (m : StartModel) (ms : List (String × Market))
    (marketNames : List (String × String)) : List (String × Market) :=
  marketNames.foldl (fun acc p => dictInsert acc p.1 (m.mkMarket p.1 p.2)) ms

/-- The early-return `StartEffects` of the `except ValueError` branches
(lines 487-489 and 531-533): the error is logged and the method returns
before `_initialize_wallet`, `_initialize_markets`, the market pair and the
strategy. -/
def valueErrorReturn (m : StartModel) (tol : ℚ) (e : String) : StartEffects :=
  { logs := [.valueError e], raised := false, walletInit := false,
    markets := m.markets0, marketsInit := false, topDepthTolerance := tol,
    marketPairSet := false, strategySet := false, clockIterators := [] }

/-- The success tail of `start_market_making` (lines 552-560): register the
wallet, then every market in `self.markets`, then the strategy on a fresh
`Clock`, schedule `clock.run()` and log that the strategy started. -/
def startedEffects (m : StartModel) (tol : ℚ)
    (ms : List (String × Market)) : StartEffects :=
  { logs := [.strategyStarted m.strategyName], raised := false,
    walletInit := true, markets := ms, marketsInit := true,
    topDepthTolerance := tol, marketPairSet := true, strategySet := true,
    clockIterators :=
      Participant.wallet :: ms.map (fun p => Participant.market p.1)
        ++ [Participant.strategy] }

/-- `HummingbotApplication.start_market_making` (lines 462-562).
`cross_exchange_market_making` branch: lower/upper-case the config values,
resolve the top-depth tolerance, split both symbols (returning early with
the logged error when either raises `ValueError`), then in order initialize
the wallet, the markets, the market pair, the strategy, and the clock
registrations. The `arbitrage` branch is the same shape with
primary/secondary values and no tolerance rules. Any other strategy name
raises `NotImplementedError` (line 550), modelled by `raised := true`. -/
def startMarketMaking (m : StartModel) : StartEffects :=
  if m.strategyName == "cross_exchange_market_making" then
    let maker := pyLower m.makerMarket
    let taker := pyLower m.takerMarket
    let rawMaker := pyUpper m.rawMakerSymbol
    let rawTaker := pyUpper m.rawTakerSymbol
    let tol := resolveTopDepthTolerance m.topDepthToleranceRules rawMaker
    match m.split maker rawMaker with
    | .error e => valueErrorReturn m tol e
    | .ok _ =>
      match m.split taker rawTaker with
      | .error e => valueErrorReturn m tol e
      | .ok _ =>
        let ms := initMarkets m m.markets0 [(maker, rawMaker), (taker, rawTaker)]
        startedEffects m tol ms
  else if m.strategyName == "arbitrage" then
    let primary := pyLower m.primaryMarket
    let secondary := pyLower m.secondaryMarket
    let rawPrimary := pyUpper m.rawPrimarySymbol
    let rawSecondary := pyUpper m.rawSecondarySymbol
    match m.split primary rawPrimary with
    | .error e => valueErrorReturn m 0 e
    | .ok _ =>
      match m.split secondary rawSecondary with
      | .error e => valueErrorReturn m 0 e
      | .ok _ =>
        let ms := initMarkets m m.markets0
          [(primary, rawPrimary), (secondary, rawSecondary)]
        startedEffects m 0 ms
  else
    { logs := [], raised := true, walletInit := false, markets := m.markets0,
      marketsInit := false, topDepthTolerance := 0, marketPairSet := false,
      strategySet := false, clockIterators := [] }

/-- `HummingbotApplication.start` (lines 448-460): if `self.status()` is
falsy, return without doing anything; otherwise schedule
`start_market_making(strategy_name)` with `asyncio.ensure_future` — the
coroutine is NOT run synchronously, so `start` itself raises nothing.
Returns the scheduled coroutine, `none` when nothing was scheduled. -/
def start (configComplete ethNodeValid : Bool)
    (markets : List (String × Market)) (strategy : Option Unit)
    (m : StartModel) : Option StartModel :=
  if status configComplete ethNodeValid markets strategy then some m
  else none

/-- Python exceptions distinguished by `_handle_command`'s except clauses. -/
inductive PyError where
  | notImplementedError
  | valueError (msg : String)
  | other
deriving DecidableEq

/-- The synchronous part of handling the `start` command: `start()` runs to
completion inside `_handle_command`'s `try`, and `asyncio.ensure_future`
only schedules the `start_market_making` coroutine, so no exception — in
particular no `NotImplementedError` — is raised synchronously. -/
def startSync (configComplete ethNodeValid : Bool)
    (markets : List (String × Market)) (strategy : Option Unit)
    (m : StartModel) : Except PyError (Option StartModel) :=
  .ok (start configComplete ethNodeValid markets strategy m)

/-- The observable outcome of `_handle_command` on a `start` command: the
log lines the handler produced, the coroutine it scheduled (if any), and
whether an exception escaped the handler. -/
structure HandleOutcome where
  logs : List LogEvent
  scheduled : Option StartModel
  crashed : Bool

/-- `_handle_command` (lines 119-140) dispatching the `start` command
(lines 448-460): run `start()` inside the `try`; the
`except NotImplementedError` branch (lines 137-138) logs the
"Command not yet implemented" message; the broad `except Exception` branch
only logs. The handler itself never lets an exception escape
(`crashed := false` in every branch). The scheduled coroutine's own
exceptions are stored in its `asyncio.Task` and never reach the handler. -/
def handleStartCommand (configComplete ethNodeValid : Bool)
    (markets : List (String × Market)) (strategy : Option Unit)
    (m : StartModel) : HandleOutcome :=
  match startSync configComplete ethNodeValid markets strategy m with
  | .ok sched =>
    { logs :=
        match sched with
        | some m' => [.statusCheckComplete m'.strategyName]
        | none => []
      scheduled := sched, crashed := false }
  | .error .notImplementedError =>
    { logs := [.notImplemented], scheduled := none, crashed := false }
  | .error _ => { logs := [], scheduled := none, crashed := false }

/-- `splitOk x` is true iff the modelled `SymbolSplitter.split` call did not
raise `ValueError`. -/
def splitOk (x : Except String (String × String)) : Bool :=
  match x with
  | .ok _ => true
  | .error _ => false

/-! Concrete values used by witnesses and counterexamples. -/

/-- The matcher of `re.compile("BTC.*")`: `.match(s)` succeeds exactly when
`s` starts with `"BTC"` (`.*` matches the empty remainder). -/
def regexBTCany : String → Bool := fun s => s.startsWith "BTC"

/-- The matcher of `re.compile(".*")`: `.match(s)` succeeds on every
symbol. -/
def regexAny : String → Bool := fun _ => true

/-- The spec's example rule list
`top_depth_tolerance_rules = [("BTC.*", 0.01), (".*", 0.0)]`. -/
def exampleRules : List ((String → Bool) × ℚ) :=
  [(regexBTCany, 1 / 100), (regexAny, 0)]

/-- A market whose single outstanding order cancels successfully. -/
def okMarket : Market :=
  { ready := true, cancelAllResults := [⟨"order-0", true⟩] }

/-- A market whose single outstanding order fails to cancel. -/
def badMarket : Market :=
  { ready := true, cancelAllResults := [⟨"order-1", false⟩] }

/-- A markets dict containing one market with a failed cancellation. -/
def msFail : List (String × Market) := [("binance", badMarket)]

/-- An application state whose single market fails cancellation. -/
def stFail : AppState :=
  { markets := msFail, wallet := none, strategyTask := some (),
    strategy := some (), marketPair := some (), clock := some () }

/-- An application state whose markets all cancel successfully. -/
def stOk : AppState :=
  { markets := [("binance", okMarket), ("ddex", okMarket)], wallet := none,
    strategyTask := some (), strategy := some (), marketPair := some (),
    clock := some () }

/-- A `split` collaborator that never raises. -/
def splitAlwaysOk : String → String → Except String (String × String) :=
  fun _ s => .ok (s, s)

/-- A `split` collaborator that always raises `ValueError`. -/
def splitAlwaysFails : String → String → Except String (String × String) :=
  fun _ _ => .error "Invalid symbol"

/-- A fully valid `cross_exchange_market_making` start configuration. -/
def crossModel : StartModel :=
  { strategyName := "cross_exchange_market_making"
    makerMarket := "DDEX", takerMarket := "binance"
    rawMakerSymbol := "weth-dai", rawTakerSymbol := "ethusdt"
    primaryMarket := "DDEX", secondaryMarket := "binance"
    rawPrimarySymbol := "weth-dai", rawSecondarySymbol := "ethusdt"
    topDepthToleranceRules := exampleRules
    split := splitAlwaysOk
    markets0 := []
    mkMarket := fun _ _ => { ready := false, cancelAllResults := [] } }

/-- The same configuration with a `SymbolSplitter.split` that raises. -/
def crossFailModel : StartModel := { crossModel with split := splitAlwaysFails }

/-- A start configuration with an unsupported strategy name. -/
def fooModel : StartModel := { crossModel with strategyName := "pure_market_making" }

/-- A second start configuration with an unsupported strategy name. -/
def fooModel2 : StartModel := { crossModel with strategyName := "unknown_strategy" }

/-! Helper lemmas about the `_cancel_outstanding_orders` loop. -/

theorem noFailures_iff (l : List CancellationResult) :
    (l.filter (fun cr => cr.success == false)).length = 0
      ↔ l.all (fun r => r.success) = true := by
  rw [List.length_eq_zero, List.filter_eq_nil_iff, List.all_eq_true]
  constructor
  · intro h r hr
    have := h r hr
    cases hs : r.success
    · simp [hs] at this
    · rfl
  · intro h r hr
    have := h r hr
    simp [this]

theorem cancelStep_success (c : Bool) (acc : CancelOutcome)
    (p : String × Market) :
    (cancelStep c acc p).success = (acc.success && marketOk c p) := by
  simp only [cancelStep]
  by_cases hskip : (!c && p.1 == "radar_relay") = true
  · rw [if_pos hskip]
    simp [marketOk, hskip]
  · have hsf : (!c && p.1 == "radar_relay") = false := by simpa using hskip
    rw [if_neg hskip]
    simp only [marketOk, hsf, Bool.false_or]
    by_cases hl :
        (p.2.cancelAllResults.filter (fun cr => cr.success == false)).length > 0
    · rw [if_pos hl]
      have hall : p.2.cancelAllResults.all (fun r => r.success) = false := by
        cases hb : p.2.cancelAllResults.all (fun r => r.success)
        · rfl
        · exact absurd ((noFailures_iff _).mpr hb) (Nat.pos_iff_ne_zero.mp hl)
      rw [hall]
      simp
    · rw [if_neg hl]
      have hall : p.2.cancelAllResults.all (fun r => r.success) = true :=
        (noFailures_iff _).mp (Nat.eq_zero_of_not_pos hl)
      rw [hall]
      simp

theorem success_foldl (c : Bool) (ms : List (String × Market)) :
    ∀ acc : CancelOutcome,
      (ms.foldl (cancelStep c) acc).success = (acc.success && ms.all (marketOk c)) := by
  induction ms with
  | nil => intro acc; simp
  | cons p ms ih =>
    intro acc
    rw [List.foldl_cons, ih, cancelStep_success, List.all_cons, Bool.and_assoc]

theorem cancelOutstandingOrders_success (c : Bool)
    (ms : List (String × Market)) :
    (cancelOutstandingOrders c ms).success = ms.all (marketOk c) := by
  simp only [cancelOutstandingOrders]
  have h := success_foldl c ms
    { success := true, calls := [], logs := [.cancellingOrders] }
  split <;> simpa using h

theorem cancelStep_calls (c : Bool) (acc : CancelOutcome)
    (p : String × Market) :
    (cancelStep c acc p).calls
      = acc.calls ++
          (if !c && p.1 == "radar_relay" then [] else [(p.1, KILL_TIMEOUT)]) := by
  simp only [cancelStep]
  by_cases hskip : (!c && p.1 == "radar_relay") = true
  · rw [if_pos hskip, if_pos hskip]
    simp
  · rw [if_neg hskip, if_neg hskip]
    split <;> simp

theorem calls_foldl (c : Bool) (ms : List (String × Market)) :
    ∀ acc : CancelOutcome,
      (ms.foldl (cancelStep c) acc).calls
        = acc.calls ++
            (ms.filter (fun p => !(!c && p.1 == "radar_relay"))).map
              (fun p => (p.1, KILL_TIMEOUT)) := by
  induction ms with
  | nil => intro acc; simp
  | cons p ms ih =>
    intro acc
    rw [List.foldl_cons, ih, cancelStep_calls, List.filter_cons]
    cases hskip : (!c && p.1 == "radar_relay") <;> simp [List.append_assoc]

theorem cancelOutstandingOrders_calls (c : Bool)
    (ms : List (String × Market)) :
    (cancelOutstandingOrders c ms).calls
      = (ms.filter (fun p => !(!c && p.1 == "radar_relay"))).map
          (fun p => (p.1, KILL_TIMEOUT)) := by
  simp only [cancelOutstandingOrders]
  have h := calls_foldl c ms
    { success := true, calls := [], logs := [.cancellingOrders] }
  split <;> simpa using h

theorem cancelStep_logs_mono (c : Bool) (acc : CancelOutcome)
    (p : String × Market) (e : LogEvent) (he : e ∈ acc.logs) :
    e ∈ (cancelStep c acc p).logs := by
  simp only [cancelStep]
  by_cases hskip : (!c && p.1 == "radar_relay") = true
  · rw [if_pos hskip]
    exact he
  · rw [if_neg hskip]
    split
    · exact List.mem_append_left _ he
    · exact he

theorem logs_foldl_mono (c : Bool) (ms : List (String × Market)) :
    ∀ (acc : CancelOutcome) (e : LogEvent), e ∈ acc.logs →
      e ∈ (ms.foldl (cancelStep c) acc).logs := by
  induction ms with
  | nil => intro acc e he; exact he
  | cons p ms ih =>
    intro acc e he
    rw [List.foldl_cons]
    exact ih _ e (cancelStep_logs_mono c acc p e he)

theorem cancelStep_logs_failed (c : Bool) (acc : CancelOutcome)
    (p : String × Market) (hskip : (!c && p.1 == "radar_relay") = false)
    (hfail :
      0 < (p.2.cancelAllResults.filter (fun cr => cr.success == false)).length) :
    LogEvent.failedToCancel p.1
        ((p.2.cancelAllResults.filter (fun cr => cr.success == false)).map
          (fun cr => cr.order_id))
      ∈ (cancelStep c acc p).logs := by
  simp only [cancelStep]
  rw [if_neg (by simp [hskip]), if_pos hfail]
  exact List.mem_append_right _ (List.mem_singleton.mpr rfl)

theorem failed_mem_foldl_logs (c : Bool) (ms : List (String × Market)) :
    ∀ (acc : CancelOutcome) (p : String × Market), p ∈ ms →
      (!c && p.1 == "radar_relay") = false →
      0 < (p.2.cancelAllResults.filter (fun cr => cr.success == false)).length →
      LogEvent.failedToCancel p.1
          ((p.2.cancelAllResults.filter (fun cr => cr.success == false)).map
            (fun cr => cr.order_id))
        ∈ (ms.foldl (cancelStep c) acc).logs := by
  induction ms with
  | nil => intro _ _ hmem; cases hmem
  | cons q ms ih =>
    intro acc p hmem hskip hfail
    rw [List.foldl_cons]
    rcases List.mem_cons.mp hmem with h | h
    · subst h
      exact logs_foldl_mono c ms _ _ (cancelStep_logs_failed c acc p hskip hfail)
    · exact ih _ p h hskip hfail

theorem failed_mem_logs (c : Bool) (ms : List (String × Market))
    (p : String × Market) (hmem : p ∈ ms)
    (hskip : (!c && p.1 == "radar_relay") = false)
    (hfail :
      0 < (p.2.cancelAllResults.filter (fun cr => cr.success == false)).length) :
    LogEvent.failedToCancel p.1
        ((p.2.cancelAllResults.filter (fun cr => cr.success == false)).map
          (fun cr => cr.order_id))
      ∈ (cancelOutstandingOrders c ms).logs := by
  simp only [cancelOutstandingOrders]
  have h := failed_mem_foldl_logs c ms
    { success := true, calls := [], logs := [.cancellingOrders] } p hmem hskip hfail
  split
  · exact List.mem_append_left _ h
  · exact h

theorem skip_bool_iff (c : Bool) (name : String) :
    ((!c && name == "radar_relay") = false)
      ↔ ¬(c = false ∧ name = "radar_relay") := by
  cases c <;> by_cases h : name = "radar_relay" <;> simp [h]

theorem exists_failed_iff_length (l : List CancellationResult) :
    (∃ r ∈ l, r.success = false)
      ↔ 0 < (l.filter (fun cr => cr.success == false)).length := by
  constructor
  · rintro ⟨r, hr, hs⟩
    have : r ∈ l.filter (fun cr => cr.success == false) :=
      List.mem_filter.mpr ⟨hr, by simp [hs]⟩
    exact List.length_pos.mpr (List.ne_nil_of_mem this)
  · intro h
    obtain ⟨r, hr⟩ := List.exists_mem_of_length_pos h
    rcases List.mem_filter.mp hr with ⟨hl, hp⟩
    exact ⟨r, hl, by simpa using hp⟩

theorem marketOk_iff (c : Bool) (p : String × Market) :
    marketOk c p = true
      ↔ (¬(c = false ∧ p.1 = "radar_relay") →
          ∀ r ∈ p.2.cancelAllResults, r.success = true) := by
  unfold marketOk
  cases c <;> by_cases h : p.1 = "radar_relay" <;>
    simp [h, List.all_eq_true]

/-- C2: `_cancel_outstanding_orders` returns true if and only if every
`CancellationResult.success` across every non-skipped market is true; when
any result of a non-skipped market failed, it returns false and logs the
failed order ids for that market. -/
theorem cancel_all_success_iff (c : Bool) (ms : List (String × Market)) :
    ((cancelOutstandingOrders c ms).success = true ↔
      ∀ p ∈ ms, ¬(c = false ∧ p.1 = "radar_relay") →
        ∀ r ∈ p.2.cancelAllResults, r.success = true)
    ∧ (∀ p ∈ ms, ¬(c = false ∧ p.1 = "radar_relay") →
        (∃ r ∈ p.2.cancelAllResults, r.success = false) →
        (cancelOutstandingOrders c ms).success = false ∧
          LogEvent.failedToCancel p.1
              ((p.2.cancelAllResults.filter (fun cr => cr.success == false)).map
                (fun cr => cr.order_id))
            ∈ (cancelOutstandingOrders c ms).logs) := by
  constructor
  · simp only [cancelOutstandingOrders_success, List.all_eq_true]
    exact forall_congr' fun p => forall_congr' fun _ => marketOk_iff c p
  · intro p hp hskipP hex
    have hskipB : (!c && p.1 == "radar_relay") = false :=
      (skip_bool_iff c p.1).mpr hskipP
    have hfail := (exists_failed_iff_length _).mp hex
    refine ⟨?_, failed_mem_logs c ms p hp hskipB hfail⟩
    rw [cancelOutstandingOrders_success]
    have hpo : marketOk c p = false := by
      cases hb : marketOk c p
      · rfl
      · obtain ⟨r, hr, hrs⟩ := hex
        rw [(marketOk_iff c p).mp hb hskipP r hr] at hrs
        cases hrs
    cases hall : ms.all (marketOk c)
    · rfl
    · rw [List.all_eq_true] at hall
      rw [hall p hp] at hpo
      cases hpo

/-- Witness for C2: a concrete market with one failed cancellation makes
the overall flag false and logs the failed order id. -/
theorem cancel_all_success_iff_witness :
    (cancelOutstandingOrders false msFail).success = false ∧
      LogEvent.failedToCancel "binance" ["order-1"]
        ∈ (cancelOutstandingOrders false msFail).logs := by
  have h := (cancel_all_success_iff false msFail).2 ("binance", badMarket)
    (by simp [msFail]) (by decide) ⟨⟨"order-1", false⟩, by decide, rfl⟩
  simpa [badMarket] using h

/-- C3: when `on_chain_cancel_on_exit` is false, `radar_relay` receives no
`cancel_all` call (and its results do not affect the overall success flag);
every other registered market receives exactly one bulk cancel call with
timeout `KILL_TIMEOUT`, which equals 5.0 seconds. -/
theorem cancel_all_skips_radar_relay (c : Bool) (ms : List (String × Market)) :
    (cancelOutstandingOrders c ms).calls
      = (ms.filter (fun p => c || !(p.1 == "radar_relay"))).map
          (fun p => (p.1, KILL_TIMEOUT))
    ∧ KILL_TIMEOUT = 5
    ∧ (cancelOutstandingOrders false ms).success
      = (cancelOutstandingOrders false
          (ms.filter (fun p => !(p.1 == "radar_relay")))).success := by
  refine ⟨?_, rfl, ?_⟩
  · rw [cancelOutstandingOrders_calls]
    congr 1
    apply List.filter_congr
    intro p _
    cases c <;> simp
  · rw [cancelOutstandingOrders_success, cancelOutstandingOrders_success]
    induction ms with
    | nil => rfl
    | cons p ms ih =>
      by_cases h : p.1 = "radar_relay"
      · have hm : marketOk false p = true := by simp [marketOk, h]
        simp [List.all_cons, List.filter_cons, h, hm, ih]
      · have hpred : (p.1 == "radar_relay") = false := by simp [h]
        simp [List.all_cons, List.filter_cons, hpred, ih]

/-- C4: `exit(force=False)` whose cancellation does not fully succeed does
not exit the app: it logs the wind-down-terminated message and returns
without calling `app.exit()`; `exit(force=True)` skips cancellation
entirely and exits. -/
theorem exit_requires_successful_cancellation (c : Bool) (st : AppState) :
    ((cancelOutstandingOrders c st.markets).success = false →
      (exit false c st).appExitCalled = false ∧
        (exit false c st).cancelCalled = true ∧
        LogEvent.windDownTerminated ∈ (exit false c st).logs)
    ∧ ((exit true c st).cancelCalled = false ∧
        (exit true c st).appExitCalled = true) := by
  refine ⟨fun h => ?_, ?_⟩
  · simp [exit, h]
  · simp [exit]

/-- Witness for C4: with one failing market, forceless exit does not call
`app.exit()` but logs the wind-down-terminated message. -/
theorem exit_requires_successful_cancellation_witness :
    (cancelOutstandingOrders false stFail.markets).success = false ∧
      ((exit false false stFail).appExitCalled = false ∧
        (exit false false stFail).cancelCalled = true ∧
        LogEvent.windDownTerminated ∈ (exit false false stFail).logs) :=
  ⟨by decide, (exit_requires_successful_cancellation false stFail).1 (by decide)⟩

/-- C5: after a `stop()` whose cancellation succeeded, the markets mapping
is empty, so a second `stop()` issues no `cancel_all` calls and its
cancellation result is again success. -/
theorem stop_idempotent (c : Bool) (st : AppState)
    (h : (cancelOutstandingOrders c st.markets).success = true) :
    (stop false c st).1.markets = [] ∧
      (cancelOutstandingOrders c (stop false c st).1.markets).calls = [] ∧
      (cancelOutstandingOrders c (stop false c st).1.markets).success = true ∧
      (stop false c (stop false c st).1).1.markets = [] := by
  have h1 : (stop false c st).1.markets = [] := by simp [stop, h]
  have h2 : (stop false c st).1
      = { markets := [], wallet := none, strategyTask := none,
          strategy := none, marketPair := none, clock := none } := by
    simp [stop, h]
  refine ⟨h1, ?_, ?_, ?_⟩
  · rw [h1]
    rfl
  · rw [h1]
    rfl
  · rw [h2]
    rfl

/-- Witness for C5: a concrete state whose two markets cancel cleanly. -/
theorem stop_idempotent_witness :
    (cancelOutstandingOrders false stOk.markets).success = true ∧
      ((stop false false stOk).1.markets = [] ∧
        (cancelOutstandingOrders false (stop false false stOk).1.markets).calls = [] ∧
        (cancelOutstandingOrders false (stop false false stOk).1.markets).success = true ∧
        (stop false false (stop false false stOk).1).1.markets = []) :=
  ⟨by decide, stop_idempotent false stOk (by decide)⟩

/-- C6: `stop()` without `skip_order_cancellation` leaves `self.markets`
unchanged when cancellation fails and erases it exactly when cancellation
succeeds. -/
theorem stop_markets_frame (c : Bool) (st : AppState) :
    ((cancelOutstandingOrders c st.markets).success = false →
      (stop false c st).1.markets = st.markets)
    ∧ ((cancelOutstandingOrders c st.markets).success = true →
      (stop false c st).1.markets = []) := by
  constructor <;> intro h <;> simp [stop, h]

/-- Witness for C6: with a failing market, `stop()` keeps the markets
mapping intact. -/
theorem stop_markets_frame_witness :
    (cancelOutstandingOrders false stFail.markets).success = false ∧
      (stop false false stFail).1.markets = stFail.markets :=
  ⟨by decide, (stop_markets_frame false stFail).1 (by decide)⟩

theorem foldl_lastMatch (sym : String) (rules : List ((String → Bool) × ℚ)) :
    ∀ acc : ℚ,
      rules.foldl (fun acc p => if p.1 sym then p.2 else acc) acc
        = ((rules.filter (fun p => p.1 sym)).map (fun p => p.2)).getLastD acc := by
  induction rules with
  | nil => intro acc; rfl
  | cons r rs ih =>
    intro acc
    rw [List.foldl_cons]
    by_cases h : r.1 sym = true
    · have hfc : List.filter (fun p => p.1 sym) (r :: rs)
          = r :: List.filter (fun p => p.1 sym) rs := by
        simp [List.filter_cons, h]
      rw [if_pos h, ih r.2, hfc, List.map_cons, List.getLastD_cons]
    · have hf : r.1 sym = false := by simpa using h
      have hfc : List.filter (fun p => p.1 sym) (r :: rs)
          = List.filter (fun p => p.1 sym) rs := by
        simp [List.filter_cons, hf]
      rw [if_neg h, ih acc, hfc]

/-- C1 counterexample: with the spec's rules
`[("BTC.*", 0.01), (".*", 0.0)]` the symbol `"BTCUSD"` resolves to `0.0`,
not to `0.01` as the first-match reading claims — the loop at lines 480-482
has no break, so the LAST matching rule wins. -/
theorem top_depth_tolerance_not_first_match :
    resolveTopDepthTolerance exampleRules "BTCUSD" = 0 ∧ (0 : ℚ) ≠ 1 / 100 := by
  constructor
  · rfl
  · norm_num

/-- C1 amended: the resolved `top_depth_tolerance` equals the value of the
LAST rule whose regex matches the maker symbol, and 0 when no rule matches;
with rules `[("BTC.*", 0.01), (".*", 0.0)]` both `"BTCUSD"` and `"ETHUSD"`
resolve to `0.0`. -/
theorem top_depth_tolerance_last_match :
    (∀ (rules : List ((String → Bool) × ℚ)) (sym : String),
        resolveTopDepthTolerance rules sym
          = ((rules.filter (fun p => p.1 sym)).map (fun p => p.2)).getLastD 0)
    ∧ resolveTopDepthTolerance exampleRules "BTCUSD" = 0
    ∧ resolveTopDepthTolerance exampleRules "ETHUSD" = 0 :=
  ⟨fun rules sym => foldl_lastMatch sym rules 0, rfl, rfl⟩

theorem last_strategy (mids : List Participant)
    (h : Participant.strategy ∉ mids) :
    (∀ it ∈ (Participant.wallet :: mids ++ [Participant.strategy]).dropLast,
        it ≠ Participant.strategy)
    ∧ (Participant.wallet :: mids ++ [Participant.strategy]).getLast?
        = some Participant.strategy := by
  have hsplit : Participant.wallet :: mids ++ [Participant.strategy]
      = (Participant.wallet :: mids) ++ [Participant.strategy] := rfl
  constructor
  · intro it hit
    rw [hsplit, List.dropLast_concat] at hit
    rcases List.mem_cons.mp hit with h1 | h1
    · rw [h1]
      intro hc
      cases hc
    · intro hc
      rw [hc] at h1
      exact h h1
  · rw [hsplit, List.getLast?_append_cons]
    rfl

theorem startMarketMaking_shape (m : StartModel) :
    (startMarketMaking m).strategySet = false
    ∨ (startMarketMaking m).clockIterators
        = Participant.wallet ::
            (startMarketMaking m).markets.map (fun p => Participant.market p.1)
          ++ [Participant.strategy] := by
  simp only [startMarketMaking]
  by_cases h1 : (m.strategyName == "cross_exchange_market_making") = true
  · rw [if_pos h1]
    cases hs1 : m.split (pyLower m.makerMarket) (pyUpper m.rawMakerSymbol) with
    | error e => left; rfl
    | ok v =>
      cases hs2 : m.split (pyLower m.takerMarket) (pyUpper m.rawTakerSymbol) with
      | error e => left; rfl
      | ok w => right; rfl
  · rw [if_neg h1]
    by_cases h2 : (m.strategyName == "arbitrage") = true
    · rw [if_pos h2]
      cases hs1 : m.split (pyLower m.primaryMarket) (pyUpper m.rawPrimarySymbol) with
      | error e => left; rfl
      | ok v =>
        cases hs2 :
            m.split (pyLower m.secondaryMarket) (pyUpper m.rawSecondarySymbol) with
        | error e => left; rfl
        | ok w => right; rfl
    · rw [if_neg h2]
      left
      rfl

/-- C9: whenever `start_market_making` reaches its clock-registration tail,
the participants are registered wallet first, then every market in
`self.markets`, then the strategy, so the strategy sits strictly after the
wallet and after every market adapter (it is the last iterator). -/
theorem strategy_registered_last (m : StartModel)
    (h : (startMarketMaking m).strategySet = true) :
    (startMarketMaking m).clockIterators
      = Participant.wallet ::
          (startMarketMaking m).markets.map (fun p => Participant.market p.1)
        ++ [Participant.strategy]
    ∧ (∀ it ∈ (startMarketMaking m).clockIterators.dropLast,
        it ≠ Participant.strategy)
    ∧ (startMarketMaking m).clockIterators.getLast?
        = some Participant.strategy := by
  rcases startMarketMaking_shape m with hs | hit
  · rw [h] at hs
    cases hs
  · have hnot : Participant.strategy ∉
        (startMarketMaking m).markets.map (fun p => Participant.market p.1) := by
      intro hc
      obtain ⟨p, _, hp⟩ := List.mem_map.mp hc
      exact Participant.noConfusion hp
    have hl := last_strategy _ hnot
    exact ⟨hit, by rw [hit]; exact hl.1, by rw [hit]; exact hl.2⟩

/-- Witness for C9: a concrete successful `cross_exchange_market_making`
start registers wallet, markets, strategy in that order. -/
theorem strategy_registered_last_witness :
    (startMarketMaking crossModel).strategySet = true ∧
      ((startMarketMaking crossModel).clockIterators
          = Participant.wallet ::
              (startMarketMaking crossModel).markets.map
                (fun p => Participant.market p.1)
            ++ [Participant.strategy]
        ∧ (∀ it ∈ (startMarketMaking crossModel).clockIterators.dropLast,
            it ≠ Participant.strategy)
        ∧ (startMarketMaking crossModel).clockIterators.getLast?
            = some Participant.strategy) :=
  ⟨rfl, strategy_registered_last crossModel rfl⟩

/-- C7: in both strategy branches, when `SymbolSplitter.split` raises
`ValueError`, `start_market_making` logs the error and returns before
initializing the wallet, before initializing any market, and before
constructing a market pair or strategy — no partial state is created. -/
theorem invalid_symbol_no_partial_state (m : StartModel)
    (h : (m.strategyName = "cross_exchange_market_making" ∧
            (splitOk (m.split (pyLower m.makerMarket) (pyUpper m.rawMakerSymbol)) &&
              splitOk (m.split (pyLower m.takerMarket) (pyUpper m.rawTakerSymbol)))
              = false)
        ∨ (m.strategyName = "arbitrage" ∧
            (splitOk (m.split (pyLower m.primaryMarket) (pyUpper m.rawPrimarySymbol)) &&
              splitOk (m.split (pyLower m.secondaryMarket) (pyUpper m.rawSecondarySymbol)))
              = false)) :
    (startMarketMaking m).walletInit = false
    ∧ (startMarketMaking m).marketsInit = false
    ∧ (startMarketMaking m).markets = m.markets0
    ∧ (startMarketMaking m).marketPairSet = false
    ∧ (startMarketMaking m).strategySet = false
    ∧ (startMarketMaking m).clockIterators = []
    ∧ (∃ e, (startMarketMaking m).logs = [LogEvent.valueError e])
    ∧ (startMarketMaking m).raised = false := by
  rcases h with ⟨hn, hs⟩ | ⟨hn, hs⟩
  · have hb : (m.strategyName == "cross_exchange_market_making") = true := by
      simp [hn]
    simp only [startMarketMaking]
    rw [if_pos hb]
    cases h1 : m.split (pyLower m.makerMarket) (pyUpper m.rawMakerSymbol) with
    | error e => exact ⟨rfl, rfl, rfl, rfl, rfl, rfl, ⟨e, rfl⟩, rfl⟩
    | ok v =>
      cases h2 : m.split (pyLower m.takerMarket) (pyUpper m.rawTakerSymbol) with
      | error e => exact ⟨rfl, rfl, rfl, rfl, rfl, rfl, ⟨e, rfl⟩, rfl⟩
      | ok w =>
        rw [h1, h2] at hs
        simp [splitOk] at hs
  · have hb1 : ¬((m.strategyName == "cross_exchange_market_making") = true) := by
      simp [hn]
    have hb2 : (m.strategyName == "arbitrage") = true := by simp [hn]
    simp only [startMarketMaking]
    rw [if_neg hb1, if_pos hb2]
    cases h1 : m.split (pyLower m.primaryMarket) (pyUpper m.rawPrimarySymbol) with
    | error e => exact ⟨rfl, rfl, rfl, rfl, rfl, rfl, ⟨e, rfl⟩, rfl⟩
    | ok v =>
      cases h2 :
          m.split (pyLower m.secondaryMarket) (pyUpper m.rawSecondarySymbol) with
      | error e => exact ⟨rfl, rfl, rfl, rfl, rfl, rfl, ⟨e, rfl⟩, rfl⟩
      | ok w =>
        rw [h1, h2] at hs
        simp [splitOk] at hs

/-- Witness for C7: a `cross_exchange_market_making` start whose splitter
raises leaves no partial state. -/
theorem invalid_symbol_no_partial_state_witness :
    (crossFailModel.strategyName = "cross_exchange_market_making" ∧
      (splitOk (crossFailModel.split (pyLower crossFailModel.makerMarket)
          (pyUpper crossFailModel.rawMakerSymbol)) &&
        splitOk (crossFailModel.split (pyLower crossFailModel.takerMarket)
          (pyUpper crossFailModel.rawTakerSymbol))) = false) ∧
      ((startMarketMaking crossFailModel).walletInit = false
        ∧ (startMarketMaking crossFailModel).marketsInit = false
        ∧ (startMarketMaking crossFailModel).markets = crossFailModel.markets0
        ∧ (startMarketMaking crossFailModel).marketPairSet = false
        ∧ (startMarketMaking crossFailModel).strategySet = false
        ∧ (startMarketMaking crossFailModel).clockIterators = []
        ∧ (∃ e, (startMarketMaking crossFailModel).logs = [LogEvent.valueError e])
        ∧ (startMarketMaking crossFailModel).raised = false) :=
  ⟨⟨rfl, rfl⟩,
    invalid_symbol_no_partial_state crossFailModel (Or.inl ⟨rfl, rfl⟩)⟩

/-- C10: whenever `self.strategy` is not `None`, `status()` returns a
non-True value, so `start()` returns immediately and never schedules
`start_market_making` — a running strategy is never replaced. -/
theorem single_strategy_run (cc ev : Bool) (ms : List (String × Market))
    (u : Unit) (m : StartModel) :
    status cc ev ms (some u) = false ∧ start cc ev ms (some u) m = none := by
  have hs : status cc ev ms (some u) = false := by
    simp only [status]
    cases cc <;> cases ev <;> simp
  exact ⟨hs, by simp [start, hs]⟩

/-- C8 counterexample: with everything valid and an unsupported strategy
name, the `start` command handler completes with the coroutine scheduled
and WITHOUT logging the "Command not yet implemented" message — yet running
the scheduled `start_market_making` raises `NotImplementedError`. The
raise happens inside the `asyncio.ensure_future` task, so it is never
routed through `_handle_command`'s `NotImplementedError` branch. -/
theorem notimplemented_not_via_handler :
    (handleStartCommand true true [] none fooModel).scheduled.isSome = true
    ∧ LogEvent.notImplemented ∉ (handleStartCommand true true [] none fooModel).logs
    ∧ (startMarketMaking fooModel).raised = true
    ∧ (handleStartCommand true true [] none fooModel).crashed = false := by
  refine ⟨rfl, ?_, rfl, rfl⟩
  decide

/-- C8 amended: an unsupported strategy name makes the scheduled
`start_market_making` task raise `NotImplementedError` and create no
strategy or market state; the command handler itself completes normally
and its `NotImplementedError` branch is never exercised (the raise stays
inside the task), so the host process does not crash. -/
theorem notimplemented_stays_in_task (cc ev : Bool)
    (ms : List (String × Market)) (strategy : Option Unit) (m : StartModel)
    (h1 : m.strategyName ≠ "cross_exchange_market_making")
    (h2 : m.strategyName ≠ "arbitrage") :
    (startMarketMaking m).raised = true
    ∧ (startMarketMaking m).strategySet = false
    ∧ (startMarketMaking m).markets = m.markets0
    ∧ (startMarketMaking m).walletInit = false
    ∧ (handleStartCommand cc ev ms strategy m).crashed = false
    ∧ LogEvent.notImplemented ∉ (handleStartCommand cc ev ms strategy m).logs := by
  have hb1 : ¬((m.strategyName == "cross_exchange_market_making") = true) := by
    simp [h1]
  have hb2 : ¬((m.strategyName == "arbitrage") = true) := by simp [h2]
  refine ⟨?_, ?_, ?_, ?_, ?_, ?_⟩
  · simp only [startMarketMaking]
    rw [if_neg hb1, if_neg hb2]
  · simp only [startMarketMaking]
    rw [if_neg hb1, if_neg hb2]
  · simp only [startMarketMaking]
    rw [if_neg hb1, if_neg hb2]
  · simp only [startMarketMaking]
    rw [if_neg hb1, if_neg hb2]
  · rfl
  · cases hst : start cc ev ms strategy m <;>
      simp [handleStartCommand, startSync, hst]

/-- Witness for C8's amended statement at a concrete unsupported name. -/
theorem notimplemented_stays_in_task_witness :
    fooModel2.strategyName ≠ "cross_exchange_market_making" ∧
      ((startMarketMaking fooModel2).raised = true
        ∧ (startMarketMaking fooModel2).strategySet = false
        ∧ (startMarketMaking fooModel2).markets = fooModel2.markets0
        ∧ (startMarketMaking fooModel2).walletInit = false
        ∧ (handleStartCommand true true [] none fooModel2).crashed = false
        ∧ LogEvent.notImplemented
            ∉ (handleStartCommand true true [] none fooModel2).logs) :=
  ⟨by decide,
    notimplemented_stays_in_task true true [] none fooModel2 (by decide)
      (by decide)⟩

end HummingbotApplication
